import Mathlib

/-!
Verification development for the diffusion noise-schedule / posterior machinery
of the denoising-diffusion-GAN repository (files train_ddgan.py and
test_ddgan.py).  The Python/PyTorch numeric code is shallowly embedded over
the real numbers:

* tensors become functions from (batch, channel, row, col) indices to reals;
* 1-D coefficient tensors become lists of reals, with gather/indexing
  rendered as getD (the claims of interest only access in-range indices);
* torch.sqrt is modelled by tsqrt, an Option-valued square root that returns
  none exactly where torch would produce NaN (negative argument) - this keeps
  the embedding honest where the schedule produces betas outside of unit range;
* the sqrt occurrences inside the samplers are modelled with Real.sqrt, and
  every theorem that depends on those values carries hypotheses under which
  the argument of the square root is nonnegative, where the two semantics
  coincide;
* random draws (torch.randn) become explicit noise-stream parameters, so that
  properties about identical seeds become properties about identical streams;
* the generator network and the text encoder are opaque function parameters,
  matching their role as external collaborators.

Python functions that may raise are modelled with Option; get_sigma_schedule
contains no validation and no raise path in the source, hence it is a total
some-returning function.
-/

namespace DDGan

/-- Configuration surface consumed by the schedule code: number of diffusion
timesteps, beta range, and the variance-function choice
(use_geometric = true selects var_func_geometric, otherwise var_func_vp). -/
structure Args where
  num_timesteps : ℕ
  beta_min : ℝ
  beta_max : ℝ
  use_geometric : Bool

/-- Variance-preserving total-variance function, from var_func_vp:
var = 1 - exp(2 * (-0.25 t^2 (bmax - bmin) - 0.5 t bmin)). -/
noncomputable def var_func_vp (t beta_min beta_max : ℝ) : ℝ :=
  1 - Real.exp (2 * (-0.25 * t ^ 2 * (beta_max - beta_min) - 0.5 * t * beta_min))

/-- Geometric total-variance function, from var_func_geometric:
var = beta_min * (beta_max / beta_min) ^ t (real exponentiation). -/
noncomputable def var_func_geometric (t beta_min beta_max : ℝ) : ℝ :=
  beta_min * (beta_max / beta_min) ^ t

/-- The k-th time point of the schedule: (k / n) * (1 - 1e-3) + 1e-3,
from the arange / rescaling in get_sigma_schedule and get_time_schedule. -/
noncomputable def time_point (n k : ℕ) : ℝ :=
  (k : ℝ) / (n : ℝ) * (1 - 1e-3) + 1e-3

/-- The variance function selected by the configuration. -/
noncomputable def var_of (args : Args) (t : ℝ) : ℝ :=
  if args.use_geometric then var_func_geometric t args.beta_min args.beta_max
  else var_func_vp t args.beta_min args.beta_max

/-- alpha_bars[k] = 1 - var(t_k), the retained-signal curve of
get_sigma_schedule, as a function of the index k. -/
noncomputable def alpha_bar (args : Args) (k : ℕ) : ℝ :=
  1 - var_of args (time_point args.num_timesteps k)

/-- The Beta Sequence of get_sigma_schedule: a fixed 1e-8 at index 0 followed
by betas[k] = 1 - alpha_bars[k] / alpha_bars[k-1] for k = 1..N. -/
noncomputable def betasOf (args : Args) : List ℝ :=
  1e-8 :: (List.range args.num_timesteps).map
    (fun k => 1 - alpha_bar args (k + 1) / alpha_bar args k)

/-- Model of torch.sqrt: none models the NaN produced on a negative argument,
otherwise the real square root. -/
noncomputable def tsqrt (x : ℝ) : Option ℝ :=
  if x < 0 then none else some (Real.sqrt x)

/-- sigmas = betas ** 0.5 elementwise (NaN-aware). -/
noncomputable def sigmasOf (args : Args) : List (Option ℝ) :=
  (betasOf args).map tsqrt

/-- a_s = sqrt(1 - betas) elementwise (NaN-aware). -/
noncomputable def a_sOf (args : Args) : List (Option ℝ) :=
  (betasOf args).map (fun b => tsqrt (1 - b))

/-- get_sigma_schedule returns (sigmas, a_s, betas).  The source contains no
configuration validation and no raise path, so the model returns some on
every input; none would model a raised error. -/
noncomputable def get_sigma_schedule (args : Args) :
    Option (List (Option ℝ) × List (Option ℝ) × List ℝ) :=
  some (sigmasOf args, a_sOf args, betasOf args)

/-- NaN-propagating product of optional reals (torch arithmetic on a tensor
holding NaNs). -/
def omul (a b : Option ℝ) : Option ℝ :=
  a.bind fun x => b.map fun y => x * y

/-- NaN-propagating sum of optional reals. -/
def oadd (a b : Option ℝ) : Option ℝ :=
  a.bind fun x => b.map fun y => x + y

/-- Inclusive prefix products with accumulator, the recursion underlying
np.cumprod over a NaN-aware list. -/
def cumprodO (acc : Option ℝ) : List (Option ℝ) → List (Option ℝ)
  | [] => []
  | x :: xs => omul acc x :: cumprodO (omul acc x) xs

/-- np.cumprod on a NaN-aware list. -/
def np_cumprod (l : List (Option ℝ)) : List (Option ℝ) :=
  cumprodO (some 1) l

/-- Inclusive prefix products with accumulator over plain reals
(torch.cumprod). -/
def cumprodR (acc : ℝ) : List ℝ → List ℝ
  | [] => []
  | x :: xs => (acc * x) :: cumprodR (acc * x) xs

/-- torch.cumprod over a real list. -/
def torch_cumprod (l : List ℝ) : List ℝ :=
  cumprodR 1 l

/-- Forward-process coefficient tables of the Diffusion_Coefficients class.
The sqrt-derived tables are NaN-aware. -/
structure Diffusion_Coefficients where
  sigmas : List (Option ℝ)
  a_s : List (Option ℝ)
  a_s_cum : List (Option ℝ)
  sigmas_cum : List (Option ℝ)
  a_s_prev : List (Option ℝ)

/-- Constructor of Diffusion_Coefficients from the configuration:
a_s_cum = cumprod(a_s), sigmas_cum = sqrt(1 - a_s_cum^2), and a_s_prev is
a_s with its last entry overwritten by 1. -/
noncomputable def Diffusion_Coefficients_of (args : Args) : Diffusion_Coefficients :=
  let a_s := a_sOf args
  let a_s_cum := np_cumprod a_s
  { sigmas := sigmasOf args
    a_s := a_s
    a_s_cum := a_s_cum
    sigmas_cum := a_s_cum.map (fun oa => oa.bind fun a => tsqrt (1 - a ^ 2))
    a_s_prev := a_s.set (a_s.length - 1) (some 1) }

/-- Forward diffusion q_sample: extract(a_s_cum, t) * x_start +
extract(sigmas_cum, t) * noise, with the noise defaulting to the fresh
standard-normal draw rng when not supplied.  Tensors are functions of
(batch, channel, row, col); t is the per-batch-element timestep vector. -/
noncomputable def q_sample (coeff : Diffusion_Coefficients)
    (x_start : ℕ → ℕ → ℕ → ℕ → ℝ) (t : ℕ → ℕ)
    (noise : Option (ℕ → ℕ → ℕ → ℕ → ℝ)) (rng : ℕ → ℕ → ℕ → ℕ → ℝ) :
    ℕ → ℕ → ℕ → ℕ → Option ℝ :=
  let n := noise.getD rng
  fun b c i j =>
    oadd (omul (coeff.a_s_cum.getD (t b) none) (some (x_start b c i j)))
      (omul (coeff.sigmas_cum.getD (t b) none) (some (n b c i j)))

/-- q_sample_pairs: draws noise (rng1), computes x_t = q_sample with a second
fresh internal draw (rng2), and x_{t+1} = extract(a_s, t+1) * x_t +
extract(sigmas, t+1) * noise using the first draw. -/
noncomputable def q_sample_pairs (coeff : Diffusion_Coefficients)
    (x_start : ℕ → ℕ → ℕ → ℕ → ℝ) (t : ℕ → ℕ)
    (rng1 rng2 : ℕ → ℕ → ℕ → ℕ → ℝ) :
    (ℕ → ℕ → ℕ → ℕ → Option ℝ) × (ℕ → ℕ → ℕ → ℕ → Option ℝ) :=
  let noise := rng1
  let x_t := q_sample coeff x_start t none rng2
  let x_t_plus_one := fun b c i j =>
    oadd (omul (coeff.a_s.getD (t b + 1) none) (x_t b c i j))
      (omul (coeff.sigmas.getD (t b + 1) none) (some (noise b c i j)))
  (x_t, x_t_plus_one)

/-- Reverse-process coefficient tables of the Posterior_Coefficients class.
Only real-valued tables (the fields with square roots are recorded with
Real.sqrt; the claims never read them at configurations where torch would
produce NaN there). -/
structure Posterior_Coefficients where
  betas : List ℝ
  alphas : List ℝ
  alphas_cumprod : List ℝ
  alphas_cumprod_prev : List ℝ
  posterior_variance : List ℝ
  sqrt_alphas_cumprod : List ℝ
  sqrt_recip_alphas_cumprod : List ℝ
  sqrt_recipm1_alphas_cumprod : List ℝ
  posterior_mean_coef1 : List ℝ
  posterior_mean_coef2 : List ℝ
  posterior_log_variance_clipped : List ℝ

/-- Constructor of Posterior_Coefficients from the configuration, following
the source line by line: betas drops index 0 of the Beta Sequence; the
posterior variance is betas * (1 - alphas_cumprod_prev) / (1 - alphas_cumprod)
elementwise; the clipped log-variance clamps the variance below at 1e-20
before taking the log. -/
noncomputable def Posterior_Coefficients_of (args : Args) : Posterior_Coefficients :=
  let betas := (betasOf args).drop 1
  let alphas := betas.map (fun b => 1 - b)
  let alphas_cumprod := torch_cumprod alphas
  let alphas_cumprod_prev := 1 :: alphas_cumprod.dropLast
  let posterior_variance := (List.range betas.length).map
    (fun i => betas.getD i 0 * (1 - alphas_cumprod_prev.getD i 0) /
      (1 - alphas_cumprod.getD i 0))
  { betas := betas
    alphas := alphas
    alphas_cumprod := alphas_cumprod
    alphas_cumprod_prev := alphas_cumprod_prev
    posterior_variance := posterior_variance
    sqrt_alphas_cumprod := alphas_cumprod.map Real.sqrt
    sqrt_recip_alphas_cumprod := alphas_cumprod.map (fun a => Real.sqrt a⁻¹)
    sqrt_recipm1_alphas_cumprod := alphas_cumprod.map (fun a => Real.sqrt (1 / a - 1))
    posterior_mean_coef1 := (List.range betas.length).map
      (fun i => betas.getD i 0 * Real.sqrt (alphas_cumprod_prev.getD i 0) /
        (1 - alphas_cumprod.getD i 0))
    posterior_mean_coef2 := (List.range betas.length).map
      (fun i => (1 - alphas_cumprod_prev.getD i 0) * Real.sqrt (alphas.getD i 0) /
        (1 - alphas_cumprod.getD i 0))
    posterior_log_variance_clipped :=
      posterior_variance.map (fun v => Real.log (max v 1e-20)) }

/-- The per-batch-element noise mask of sample_posterior:
nonzero_mask = 1 - (t == 0), i.e. 0 exactly on elements at timestep 0. -/
def nonzero_mask (t : ℕ → ℕ) (b : ℕ) : ℝ :=
  if t b = 0 then 0 else 1

/-- One reverse step, sample_posterior: the posterior mean
coef1[t] * x_0 + coef2[t] * x_t plus masked noise
nonzero_mask * exp(0.5 * log_var) * noise. -/
noncomputable def sample_posterior (coefficients : Posterior_Coefficients)
    (x_0 x_t : ℕ → ℕ → ℕ → ℕ → ℝ) (t : ℕ → ℕ)
    (noise : ℕ → ℕ → ℕ → ℕ → ℝ) : ℕ → ℕ → ℕ → ℕ → ℝ :=
  fun b c i j =>
    let mean := coefficients.posterior_mean_coef1.getD (t b) 0 * x_0 b c i j +
      coefficients.posterior_mean_coef2.getD (t b) 0 * x_t b c i j
    let log_var := coefficients.posterior_log_variance_clipped.getD (t b) 0
    mean + nonzero_mask t b * Real.exp (0.5 * log_var) * noise b c i j

/-- The reverse loop driver: for i in reversed(range(n)), x = step i x. -/
def revLoop (step : ℕ → (ℕ → ℕ → ℕ → ℕ → ℝ) → (ℕ → ℕ → ℕ → ℕ → ℝ)) :
    ℕ → (ℕ → ℕ → ℕ → ℕ → ℝ) → (ℕ → ℕ → ℕ → ℕ → ℝ)
  | 0, x => x
  | n + 1, x => revLoop step n (step n x)

/-- Base reverse sampler sample_from_model: at each i the generator predicts
the clean sample from (x, t = i, latent, cond) and sample_posterior draws the
next state.  latents and noises are the per-iteration random streams; T is
the (unused) time-schedule argument of the source signature. -/
noncomputable def sample_from_model {L C : Type}
    (coefficients : Posterior_Coefficients)
    (generator : (ℕ → ℕ → ℕ → ℕ → ℝ) → (ℕ → ℕ) → L → C → (ℕ → ℕ → ℕ → ℕ → ℝ))
    (n_time : ℕ) (x_init : ℕ → ℕ → ℕ → ℕ → ℝ) (T : List ℝ) (cond : C)
    (latents : ℕ → L) (noises : ℕ → ℕ → ℕ → ℕ → ℕ → ℝ) :
    ℕ → ℕ → ℕ → ℕ → ℝ :=
  revLoop
    (fun i x =>
      let t : ℕ → ℕ := fun _ => i
      let x_0 := generator x t (latents i) cond
      sample_posterior coefficients x_0 x t (noises i))
    n_time x_init

/-- Dynamic thresholding block of the guidance sampler: when the configured
quantile q is nonzero, each batch element is clipped to [-d, d] and divided
by d, where d is the q-quantile of its flattened absolute values clamped
below at 1; when q is zero the input passes through unchanged.  quantile is
the torch.quantile primitive, an external library routine taking the
flattened per-sample values. -/
noncomputable def dynamic_threshold
    (quantile : (ℕ → ℕ → ℕ → ℝ) → ℝ → ℝ) (q : ℝ)
    (x_0 : ℕ → ℕ → ℕ → ℕ → ℝ) : ℕ → ℕ → ℕ → ℕ → ℝ :=
  if q = 0 then x_0
  else fun b c i j =>
    let d := max (quantile (fun c i j => |x_0 b c i j|) q) 1
    min (max (x_0 b c i j) (-d)) d / d

/-- Classifier-free-guidance reverse sampler
sample_from_model_classifier_free_guidance.  Per iteration: one latent draw
shared by the null-conditioned and the conditioned generator calls, epsilon
recovered algebraically from each prediction, blended as
eps_uncond * (1 - scale) + eps_cond * scale, the guided x_0 reconstructed,
dynamic thresholding applied, and one posterior step taken.  bs is
len(x_init); the null conditioning is the text encoding of bs empty
strings. -/
noncomputable def sample_from_model_classifier_free_guidance {L C : Type}
    (coefficients : Posterior_Coefficients)
    (generator : (ℕ → ℕ → ℕ → ℕ → ℝ) → (ℕ → ℕ) → L → C → (ℕ → ℕ → ℕ → ℕ → ℝ))
    (n_time : ℕ) (x_init : ℕ → ℕ → ℕ → ℕ → ℝ) (T : List ℝ)
    (text_encoder : List String → C) (bs : ℕ) (cond : C)
    (guidance_scale : ℝ) (q : ℝ) (quantile : (ℕ → ℕ → ℕ → ℝ) → ℝ → ℝ)
    (latents : ℕ → L) (noises : ℕ → ℕ → ℕ → ℕ → ℕ → ℝ) :
    ℕ → ℕ → ℕ → ℕ → ℝ :=
  let null := text_encoder (List.replicate bs "")
  revLoop
    (fun i x =>
      let t : ℕ → ℕ := fun _ => i
      let latent_z := latents i
      let x_0_uncond := generator x t latent_z null
      let x_0_cond := generator x t latent_z cond
      let ac := coefficients.alphas_cumprod.getD i 0
      let eps_uncond := fun b c h w =>
        (x b c h w - Real.sqrt ac * x_0_uncond b c h w) / Real.sqrt (1 - ac)
      let eps_cond := fun b c h w =>
        (x b c h w - Real.sqrt ac * x_0_cond b c h w) / Real.sqrt (1 - ac)
      let eps := fun b c h w =>
        eps_uncond b c h w * (1 - guidance_scale) + eps_cond b c h w * guidance_scale
      let x_0 := fun b c h w =>
        1 / Real.sqrt ac * (x b c h w - Real.sqrt (1 - ac) * eps b c h w)
      let x_0t := dynamic_threshold quantile q x_0
      sample_posterior coefficients x_0t x t (noises i))
    n_time x_init

/-- Normalized distance to the image border of delta_border: coordinates are
divided by the lower-right corner (h-1, w-1), and the entry is the minimum of
the distance to the left/up and right/down borders. -/
noncomputable def delta_border (h w i j : ℕ) : ℝ :=
  let y := (i : ℝ) / ((h : ℝ) - 1)
  let x := (j : ℝ) / ((w : ℝ) - 1)
  min (min y x) (min (1 - y) (1 - x))

/-- torch.clip(x, lo, hi). -/
noncomputable def tclip (x lo hi : ℝ) : ℝ :=
  min (max x lo) hi

/-- Tiling weight bundle of split_input_params: clip bounds for the spatial
weighting, the tie-breaker flag and its clip bounds. -/
structure SplitParams where
  clip_min_weight : ℝ
  clip_max_weight : ℝ
  tie_braker : Bool
  clip_min_tie_weight : ℝ
  clip_max_tie_weight : ℝ

/-- Per-patch spatial weighting of get_weighting: the clipped border distance
at position (a, e) inside a kernel of size h x w, multiplied (when the
tie-breaker is active) by the clipped border distance of the patch position
inside the Ly x Lx patch grid; p is the row-major patch index. -/
noncomputable def get_weighting (h w Ly Lx : ℕ) (sp : SplitParams)
    (a e p : ℕ) : ℝ :=
  tclip (delta_border h w a e) sp.clip_min_weight sp.clip_max_weight *
    (if sp.tie_braker then
      tclip (delta_border Ly Lx (p / Lx) (p % Lx))
        sp.clip_min_tie_weight sp.clip_max_tie_weight
    else 1)

/-- Number of patches along one axis: (dim - kernel) / stride + 1. -/
def n_patches (dim kernel stride : ℕ) : ℕ :=
  (dim - kernel) / stride + 1

/-- torch.nn.Unfold: patch p (row-major over the Ly x Lx grid) holds the
image values at (py * sh + a, px * sw + e). -/
def unfold_op (w kw sh sw : ℕ) (x : ℕ → ℕ → ℕ → ℕ → ℝ) :
    ℕ → ℕ → ℕ → ℕ → ℕ → ℝ :=
  let Lx := n_patches w kw sw
  fun b c a e p => x b c (p / Lx * sh + a) (p % Lx * sw + e)

/-- torch.nn.Fold: each output pixel sums the contributions of every patch
position mapped onto it. -/
noncomputable def fold_op (h w kh kw sh sw : ℕ)
    (patches : ℕ → ℕ → ℕ → ℕ → ℕ → ℝ) : ℕ → ℕ → ℕ → ℕ → ℝ :=
  let Ly := n_patches h kh sh
  let Lx := n_patches w kw sw
  fun b c i j =>
    ∑ py ∈ Finset.range Ly, ∑ px ∈ Finset.range Lx,
      ∑ a ∈ Finset.range kh, ∑ e ∈ Finset.range kw,
        if py * sh + a = i ∧ px * sw + e = j then
          patches b c a e (py * Lx + px)
        else 0

/-- The normalization map of get_fold_unfold (uf = df = 1 branch): the fold
of the weighting mask, broadcast over batch and channel. -/
noncomputable def normalization_map (h w kh kw sh sw : ℕ) (sp : SplitParams) :
    ℕ → ℕ → ℝ :=
  let Ly := n_patches h kh sh
  let Lx := n_patches w kw sw
  fun i j =>
    fold_op h w kh kw sh sw
      (fun _ _ a e p => get_weighting kh kw Ly Lx sp a e p) 0 0 i j

/-- Tiled classifier-free-guidance sampler
sample_from_model_classifier_free_guidance_convolutional (vqf = 1 branch).
Per iteration: one latent draw shared across the null/conditioned calls of
every patch, per-patch guided prediction, thresholding and posterior step
(per-patch posterior noise stream), then fold of the stacked patch results
divided by the normalization map; the weighting multiply on the stacked
output is commented out in the source and hence absent here. -/
noncomputable def sample_from_model_classifier_free_guidance_convolutional
    {L C : Type} (coefficients : Posterior_Coefficients)
    (generator : (ℕ → ℕ → ℕ → ℕ → ℝ) → (ℕ → ℕ) → L → C → (ℕ → ℕ → ℕ → ℕ → ℝ))
    (n_time : ℕ) (x_init : ℕ → ℕ → ℕ → ℕ → ℝ) (T : List ℝ)
    (text_encoder : List String → C) (bs : ℕ) (cond : C)
    (guidance_scale : ℝ) (h w kh kw sh sw : ℕ) (sp : SplitParams)
    (q : ℝ) (quantile : (ℕ → ℕ → ℕ → ℝ) → ℝ → ℝ)
    (latents : ℕ → L) (noises : ℕ → ℕ → ℕ → ℕ → ℕ → ℕ → ℝ) :
    ℕ → ℕ → ℕ → ℕ → ℝ :=
  let null := text_encoder (List.replicate bs "")
  revLoop
    (fun i x =>
      let t : ℕ → ℕ := fun _ => i
      let latent_z := latents i
      let patches := unfold_op w kw sh sw x
      let patch_img : ℕ → ℕ → ℕ → ℕ → ℕ → ℝ := fun p b c a e => patches b c a e p
      let x_new : ℕ → ℕ → ℕ → ℕ → ℕ → ℝ := fun p =>
        let xp := patch_img p
        let x_0_uncond := generator xp t latent_z null
        let x_0_cond := generator xp t latent_z cond
        let ac := coefficients.alphas_cumprod.getD i 0
        let eps_uncond := fun b c a e =>
          (xp b c a e - Real.sqrt ac * x_0_uncond b c a e) / Real.sqrt (1 - ac)
        let eps_cond := fun b c a e =>
          (xp b c a e - Real.sqrt ac * x_0_cond b c a e) / Real.sqrt (1 - ac)
        let eps := fun b c a e =>
          eps_uncond b c a e * (1 - guidance_scale) + eps_cond b c a e * guidance_scale
        let x_0 := fun b c a e =>
          1 / Real.sqrt ac * (xp b c a e - Real.sqrt (1 - ac) * eps b c a e)
        let x_0t := dynamic_threshold quantile q x_0
        sample_posterior coefficients x_0t xp t (noises i p)
      let o : ℕ → ℕ → ℕ → ℕ → ℕ → ℝ := fun b c a e p => x_new p b c a e
      fun b c i2 j2 =>
        fold_op h w kh kw sh sw o b c i2 j2 /
          normalization_map h w kh kw sh sw sp i2 j2)
    n_time x_init

/-! ## Theorems -/

/-- C3: for every coefficient table, x0 prediction, noised sample and
timestep vector, the per-element mask is 0 exactly when that element's
timestep is 0; on such elements sample_posterior is independent of the noise
draw and equals the posterior mean, while elements with positive timestep
keep the noise term with coefficient exp(0.5 * log_var). -/
theorem sample_posterior_terminal_deterministic
    (coefficients : Posterior_Coefficients)
    (x_0 x_t : ℕ → ℕ → ℕ → ℕ → ℝ) (t : ℕ → ℕ)
    (noise1 noise2 : ℕ → ℕ → ℕ → ℕ → ℝ) (b : ℕ) :
    (nonzero_mask t b = 0 ↔ t b = 0) ∧
    (t b = 0 → ∀ c i j,
      sample_posterior coefficients x_0 x_t t noise1 b c i j =
        sample_posterior coefficients x_0 x_t t noise2 b c i j ∧
      sample_posterior coefficients x_0 x_t t noise1 b c i j =
        coefficients.posterior_mean_coef1.getD (t b) 0 * x_0 b c i j +
          coefficients.posterior_mean_coef2.getD (t b) 0 * x_t b c i j) ∧
    (t b ≠ 0 → ∀ c i j,
      sample_posterior coefficients x_0 x_t t noise1 b c i j =
        coefficients.posterior_mean_coef1.getD (t b) 0 * x_0 b c i j +
          coefficients.posterior_mean_coef2.getD (t b) 0 * x_t b c i j +
          Real.exp (0.5 * coefficients.posterior_log_variance_clipped.getD (t b) 0) *
            noise1 b c i j) := by
  refine ⟨?_, ?_, ?_⟩
  · unfold nonzero_mask
    by_cases h : t b = 0 <;> simp [h]
  · intro h c i j
    unfold sample_posterior nonzero_mask
    simp [h]
  · intro h c i j
    unfold sample_posterior nonzero_mask
    simp [h]

/-- Witness for C3 at a concrete table and concrete tensors: with every
element at timestep 0, two runs with different noise draws agree. -/
theorem sample_posterior_terminal_deterministic_witness :
    sample_posterior
        ⟨[], [], [], [], [], [], [], [], [1], [2], [0]⟩
        (fun _ _ _ _ => 3) (fun _ _ _ _ => 5) (fun _ => 0)
        (fun _ _ _ _ => 7) 0 0 0 0 =
      sample_posterior
        ⟨[], [], [], [], [], [], [], [], [1], [2], [0]⟩
        (fun _ _ _ _ => 3) (fun _ _ _ _ => 5) (fun _ => 0)
        (fun _ _ _ _ => 9) 0 0 0 0 :=
  ((sample_posterior_terminal_deterministic
      ⟨[], [], [], [], [], [], [], [], [1], [2], [0]⟩
      (fun _ _ _ _ => 3) (fun _ _ _ _ => 5) (fun _ => 0)
      (fun _ _ _ _ => 7) (fun _ _ _ _ => 9) 0).2.1 rfl 0 0 0).1

/-- C6: dynamic thresholding passes its input through unchanged exactly when
the configured quantile is zero; otherwise, per batch element, the threshold
d is the quantile of the flattened absolute values clamped below at 1, values
are clipped to [-d, d] and divided by d, and the post-thresholding absolute
value is bounded by 1 everywhere. -/
theorem dynamic_threshold_spec
    (quantile : (ℕ → ℕ → ℕ → ℝ) → ℝ → ℝ) (q : ℝ)
    (x_0 : ℕ → ℕ → ℕ → ℕ → ℝ) :
    (q = 0 → dynamic_threshold quantile q x_0 = x_0) ∧
    (q ≠ 0 → ∀ b c i j,
      1 ≤ max (quantile (fun c2 i2 j2 => |x_0 b c2 i2 j2|) q) 1 ∧
      dynamic_threshold quantile q x_0 b c i j =
        min (max (x_0 b c i j)
            (-max (quantile (fun c2 i2 j2 => |x_0 b c2 i2 j2|) q) 1))
          (max (quantile (fun c2 i2 j2 => |x_0 b c2 i2 j2|) q) 1) /
          max (quantile (fun c2 i2 j2 => |x_0 b c2 i2 j2|) q) 1 ∧
      |dynamic_threshold quantile q x_0 b c i j| ≤ 1) := by
  constructor
  · intro h
    unfold dynamic_threshold
    simp [h]
  · intro h b c i j
    have hd1 : 1 ≤ max (quantile (fun c2 i2 j2 => |x_0 b c2 i2 j2|) q) 1 :=
      le_max_right _ _
    have hd0 : 0 < max (quantile (fun c2 i2 j2 => |x_0 b c2 i2 j2|) q) 1 :=
      lt_of_lt_of_le one_pos hd1
    refine ⟨hd1, ?_, ?_⟩
    · unfold dynamic_threshold
      simp [h]
    · unfold dynamic_threshold
      simp only [h, if_false]
      rw [abs_div, abs_of_pos hd0, div_le_one hd0]
      apply abs_le.mpr
      constructor
      · apply le_min
        · exact le_max_right _ _
        · linarith
      · exact min_le_right _ _

/-- Witness for C6 at a concrete nonzero quantile configuration and a
constant tensor of value 5: the thresholded output is bounded by 1. -/
theorem dynamic_threshold_spec_witness :
    |dynamic_threshold (fun _ _ => 0) 1 (fun _ _ _ _ => 5) 0 0 0 0| ≤ 1 :=
  ((dynamic_threshold_spec (fun _ _ => 0) 1 (fun _ _ _ _ => 5)).2
    (by norm_num) 0 0 0 0).2.2

/-- C8 counterexample: at the invalid configuration beta_min = beta_max = 1/10
(with the geometric variance function), coefficient construction does not
fail: get_sigma_schedule returns a value instead of an error. -/
theorem get_sigma_schedule_no_validation :
    (Args.mk 1 (1/10) (1/10) true).beta_max ≤ (Args.mk 1 (1/10) (1/10) true).beta_min ∧
    get_sigma_schedule (Args.mk 1 (1/10) (1/10) true) ≠ none := by
  constructor
  · norm_num
  · simp [get_sigma_schedule]

/-- C8 amended: coefficient construction performs no configuration
validation at all - get_sigma_schedule returns a value on every
configuration, and at beta_min = beta_max it silently produces the
degenerate beta sequence whose entries past index 0 are all zero (here
concretely the non-monotonic sequence 1e-8, 0). -/
theorem get_sigma_schedule_total :
    (∀ args : Args, get_sigma_schedule args ≠ none) ∧
    betasOf (Args.mk 1 (1/10) (1/10) true) = [1e-8, 0] := by
  constructor
  · intro args
    simp [get_sigma_schedule]
  · unfold betasOf alpha_bar var_of var_func_geometric
    norm_num [List.range_succ, time_point, Real.one_rpow]

/-! ### Arithmetic helper lemmas for the concrete schedule values -/

lemma rpow_one_div_thousand_lt_two : (200:ℝ) ^ ((1:ℝ)/1000) < 2 := by
  by_contra h
  push_neg at h
  have hpow : (2:ℝ) ^ (1000:ℕ) ≤ ((200:ℝ) ^ ((1:ℝ)/1000)) ^ (1000:ℕ) :=
    pow_le_pow_left₀ (by norm_num) h 1000
  have hid : ((200:ℝ) ^ ((1:ℝ)/1000)) ^ (1000:ℕ) = 200 := by
    rw [← Real.rpow_natCast ((200:ℝ) ^ ((1:ℝ)/1000)) 1000,
      ← Real.rpow_mul (by norm_num)]
    norm_num
  have h256 : (256:ℝ) ≤ (2:ℝ) ^ (1000:ℕ) := by
    calc (256:ℝ) = 2 ^ (8:ℕ) := by norm_num
    _ ≤ 2 ^ (1000:ℕ) := pow_le_pow_right₀ (by norm_num) (by norm_num)
  rw [hid] at hpow
  linarith

lemma rpow_1001_gt_ten : 10 < (200:ℝ) ^ ((1001:ℝ)/2000) := by
  have h1 : (10:ℝ) < (200:ℝ) ^ ((1:ℝ)/2) := by
    rw [← Real.sqrt_eq_rpow]
    have h10 : (10:ℝ) = Real.sqrt 100 := by
      rw [show (100:ℝ) = 10 ^ 2 by norm_num, Real.sqrt_sq (by norm_num)]
    rw [h10]
    exact Real.sqrt_lt_sqrt (by norm_num) (by norm_num)
  have h2 : (200:ℝ) ^ ((1:ℝ)/2) ≤ (200:ℝ) ^ ((1001:ℝ)/2000) :=
    Real.rpow_le_rpow_of_exponent_le (by norm_num) (by norm_num)
  linarith

lemma rpow_1001_lt_two_hundred : (200:ℝ) ^ ((1001:ℝ)/2000) < 200 := by
  have h := Real.rpow_lt_rpow_of_exponent_lt
    (show (1:ℝ) < 200 by norm_num) (show (1001:ℝ)/2000 < 1 by norm_num)
  rw [Real.rpow_one] at h
  exact h

/-! ### The geometric schedule escapes the unit interval -/

lemma geo_alpha_bar_one : alpha_bar (Args.mk 1 (1/10) 20 true) 1 = -19 := by
  have he : time_point 1 1 = 1 := by unfold time_point; norm_num
  unfold alpha_bar var_of
  rw [he]
  norm_num [var_func_geometric, Real.rpow_one]

lemma geo_alpha_bar_zero :
    alpha_bar (Args.mk 1 (1/10) 20 true) 0 =
      1 - 1/10 * (200:ℝ) ^ ((1:ℝ)/1000) := by
  have he : time_point 1 0 = 1/1000 := by unfold time_point; norm_num
  unfold alpha_bar var_of
  rw [he]
  norm_num [var_func_geometric]

lemma geo_denominator_pos : 0 < 1 - 1/10 * (200:ℝ) ^ ((1:ℝ)/1000) := by
  have h := rpow_one_div_thousand_lt_two
  have h0 : 0 < (200:ℝ) ^ ((1:ℝ)/1000) := Real.rpow_pos_of_pos (by norm_num) _
  nlinarith

lemma geometric_beta_exceeds_one :
    1 < (betasOf (Args.mk 1 (1/10) 20 true)).getD 1 0 := by
  have hform : (betasOf (Args.mk 1 (1/10) 20 true)).getD 1 0 =
      1 - alpha_bar (Args.mk 1 (1/10) 20 true) 1 /
        alpha_bar (Args.mk 1 (1/10) 20 true) 0 := by
    unfold betasOf
    simp [List.range_succ]
  rw [hform, geo_alpha_bar_one, geo_alpha_bar_zero]
  have hd := geo_denominator_pos
  have hneg : (-19:ℝ) / (1 - 1/10 * (200:ℝ) ^ ((1:ℝ)/1000)) < 0 :=
    div_neg_of_neg_of_pos (by norm_num) hd
  linarith

/-! ### Variance-preserving schedule bounds -/

lemma alpha_bar_vp (args : Args) (h : args.use_geometric = false) (k : ℕ) :
    alpha_bar args k =
      Real.exp (2 * (-0.25 * time_point args.num_timesteps k ^ 2 *
        (args.beta_max - args.beta_min) -
        0.5 * time_point args.num_timesteps k * args.beta_min)) := by
  unfold alpha_bar var_of var_func_vp
  simp only [h, Bool.false_eq_true, if_false]
  ring

lemma time_point_pos (n k : ℕ) : 0 < time_point n k := by
  unfold time_point
  positivity

lemma time_point_strictMono (n : ℕ) (hn : 1 ≤ n) (k : ℕ) :
    time_point n k < time_point n (k+1) := by
  unfold time_point
  have hn0 : (0:ℝ) < (n:ℝ) := by exact_mod_cast hn
  have hdiv : (k:ℝ)/(n:ℝ) < ((k:ℝ)+1)/(n:ℝ) :=
    (div_lt_div_iff_of_pos_right hn0).mpr (by linarith)
  push_cast
  nlinarith

lemma vp_ratio_bounds (args : Args) (hgeo : args.use_geometric = false)
    (hn : 1 ≤ args.num_timesteps) (hbm : 0 < args.beta_min)
    (hbb : args.beta_min < args.beta_max) (k : ℕ) :
    0 < alpha_bar args (k+1) / alpha_bar args k ∧
      alpha_bar args (k+1) / alpha_bar args k < 1 := by
  rw [alpha_bar_vp args hgeo, alpha_bar_vp args hgeo, ← Real.exp_sub]
  refine ⟨Real.exp_pos _, ?_⟩
  have ht := time_point_strictMono args.num_timesteps hn k
  have ht0 := time_point_pos args.num_timesteps k
  have hexp : Real.exp (2 * (-0.25 * time_point args.num_timesteps (k+1) ^ 2 *
        (args.beta_max - args.beta_min) -
        0.5 * time_point args.num_timesteps (k+1) * args.beta_min) -
      2 * (-0.25 * time_point args.num_timesteps k ^ 2 *
        (args.beta_max - args.beta_min) -
        0.5 * time_point args.num_timesteps k * args.beta_min)) <
      Real.exp 0 := by
    apply Real.exp_lt_exp.mpr
    nlinarith [mul_pos (sub_pos.mpr ht) (sub_pos.mpr hbb),
      mul_pos (sub_pos.mpr ht) hbm,
      mul_pos (sub_pos.mpr ht) (add_pos ht0 (ht0.trans ht))]
  simpa using hexp

lemma getD_range_map (f : ℕ → ℝ) (n i : ℕ) (h : i < n) :
    ((List.range n).map f).getD i 0 = f i := by
  rw [List.getD_eq_getElem?_getD, List.getElem?_map, List.getElem?_range h]
  rfl

lemma betasOf_getD_succ (args : Args) (k : ℕ) (hk : k < args.num_timesteps) :
    (betasOf args).getD (k+1) 0 = 1 - alpha_bar args (k+1) / alpha_bar args k := by
  unfold betasOf
  rw [List.getD_cons_succ, getD_range_map _ _ _ hk]

lemma betasOf_length (args : Args) :
    (betasOf args).length = args.num_timesteps + 1 := by
  simp [betasOf]

lemma vp_betas_bounds (args : Args) (hgeo : args.use_geometric = false)
    (hn : 1 ≤ args.num_timesteps) (hbm : 0 < args.beta_min)
    (hbb : args.beta_min < args.beta_max) :
    ∀ i, i < (betasOf args).length →
      0 ≤ (betasOf args).getD i 0 ∧ (betasOf args).getD i 0 < 1 := by
  intro i hi
  cases i with
  | zero =>
    constructor <;> norm_num [betasOf]
  | succ k =>
    rw [betasOf_length] at hi
    have hk : k < args.num_timesteps := by omega
    rw [betasOf_getD_succ args k hk]
    obtain ⟨h1, h2⟩ := vp_ratio_bounds args hgeo hn hbm hbb k
    constructor <;> linarith

lemma one_sub_exp_div_lt (a b c d : ℝ) (h : c - d < a - b) :
    1 - Real.exp a / Real.exp b < 1 - Real.exp c / Real.exp d := by
  rw [← Real.exp_sub, ← Real.exp_sub]
  have hlt := Real.exp_lt_exp.mpr h
  linarith

/-- C5 counterexample: under the geometric variance choice with the default
beta range (N = 1, beta_min = 1/10, beta_max = 20, a valid configuration),
the Beta Sequence entry at index 1 exceeds 1, so the claim that every entry
of the Beta Sequence lies in the interval from 0 up to (excluding) 1 for
either variance-function choice is false. -/
theorem betas_unit_range_counterexample :
    ¬ ((betasOf (Args.mk 1 (1/10) 20 true)).getD 1 0 < 1) := by
  have h := geometric_beta_exceeds_one
  linarith

/-- C5 amended: for every valid configuration the Beta Sequence has length
N + 1 and starts with the fixed constant 1e-8; under the variance-preserving
choice every entry lies in the interval from 0 up to (excluding) 1; and in
the concrete variance-preserving configuration N = 4, beta_min = 1/10,
beta_max = 20 the entries at indices 1 to 4 are strictly increasing.  (The
unit-interval invariant does not extend to the geometric choice.) -/
theorem beta_schedule_spec :
    (∀ args : Args, 1 ≤ args.num_timesteps → 0 < args.beta_min →
      args.beta_min < args.beta_max →
      (betasOf args).length = args.num_timesteps + 1 ∧
      (betasOf args).getD 0 0 = 1e-8 ∧
      (args.use_geometric = false → ∀ i, i < (betasOf args).length →
        0 ≤ (betasOf args).getD i 0 ∧ (betasOf args).getD i 0 < 1)) ∧
    ((betasOf (Args.mk 4 (1/10) 20 false)).getD 1 0 <
        (betasOf (Args.mk 4 (1/10) 20 false)).getD 2 0 ∧
      (betasOf (Args.mk 4 (1/10) 20 false)).getD 2 0 <
        (betasOf (Args.mk 4 (1/10) 20 false)).getD 3 0 ∧
      (betasOf (Args.mk 4 (1/10) 20 false)).getD 3 0 <
        (betasOf (Args.mk 4 (1/10) 20 false)).getD 4 0) := by
  constructor
  · intro args hn hbm hbb
    refine ⟨betasOf_length args, rfl, ?_⟩
    intro hgeo
    exact vp_betas_bounds args hgeo hn hbm hbb
  · have hgeo : (Args.mk 4 (1/10) 20 false).use_geometric = false := rfl
    have e1 : (betasOf (Args.mk 4 (1/10) 20 false)).getD 1 0 =
        1 - alpha_bar (Args.mk 4 (1/10) 20 false) 1 /
          alpha_bar (Args.mk 4 (1/10) 20 false) 0 :=
      betasOf_getD_succ _ 0 (by norm_num)
    have e2 : (betasOf (Args.mk 4 (1/10) 20 false)).getD 2 0 =
        1 - alpha_bar (Args.mk 4 (1/10) 20 false) 2 /
          alpha_bar (Args.mk 4 (1/10) 20 false) 1 :=
      betasOf_getD_succ _ 1 (by norm_num)
    have e3 : (betasOf (Args.mk 4 (1/10) 20 false)).getD 3 0 =
        1 - alpha_bar (Args.mk 4 (1/10) 20 false) 3 /
          alpha_bar (Args.mk 4 (1/10) 20 false) 2 :=
      betasOf_getD_succ _ 2 (by norm_num)
    have e4 : (betasOf (Args.mk 4 (1/10) 20 false)).getD 4 0 =
        1 - alpha_bar (Args.mk 4 (1/10) 20 false) 4 /
          alpha_bar (Args.mk 4 (1/10) 20 false) 3 :=
      betasOf_getD_succ _ 3 (by norm_num)
    refine ⟨?_, ?_, ?_⟩
    · rw [e1, e2, alpha_bar_vp _ hgeo, alpha_bar_vp _ hgeo, alpha_bar_vp _ hgeo]
      apply one_sub_exp_div_lt
      unfold time_point
      norm_num
    · rw [e2, e3, alpha_bar_vp _ hgeo, alpha_bar_vp _ hgeo, alpha_bar_vp _ hgeo]
      apply one_sub_exp_div_lt
      unfold time_point
      norm_num
    · rw [e3, e4, alpha_bar_vp _ hgeo, alpha_bar_vp _ hgeo, alpha_bar_vp _ hgeo]
      apply one_sub_exp_div_lt
      unfold time_point
      norm_num

/-- Witness for the amended C5 at a concrete valid configuration. -/
theorem beta_schedule_spec_witness :
    (betasOf (Args.mk 1 (1/10) 20 false)).getD 0 0 = 1e-8 :=
  (beta_schedule_spec.1 (Args.mk 1 (1/10) 20 false)
    (by norm_num) (by norm_num) (by norm_num)).2.1

/-! ### Cumulative products of the forward coefficients -/

lemma omul_none (a : Option ℝ) : omul a none = none := by
  cases a <;> rfl

lemma cumprodO_length (acc : Option ℝ) (l : List (Option ℝ)) :
    (cumprodO acc l).length = l.length := by
  induction l generalizing acc with
  | nil => rfl
  | cons x xs ih => simp [cumprodO, ih]

lemma cumprodO_unit_range (l : List (Option ℝ)) (a : ℝ)
    (ha0 : 0 < a) (ha1 : a ≤ 1)
    (hl : ∀ o ∈ l, ∃ v, o = some v ∧ 0 < v ∧ v ≤ 1) :
    ∀ i, i < l.length → ∃ c, (cumprodO (some a) l).getD i none = some c ∧
      0 < c ∧ c ≤ 1 := by
  induction l generalizing a with
  | nil =>
    intro i hi
    simp at hi
  | cons x xs ih =>
    intro i hi
    obtain ⟨v, hx, hv0, hv1⟩ := hl x (by simp)
    subst hx
    have hmul : omul (some a) (some v) = some (a * v) := rfl
    have hav0 : 0 < a * v := mul_pos ha0 hv0
    have hav1 : a * v ≤ 1 := by nlinarith
    cases i with
    | zero =>
      exact ⟨a * v, by simp [cumprodO, hmul], hav0, hav1⟩
    | succ i2 =>
      have htail := ih (a * v) hav0 hav1
        (fun o ho => hl o (by simp [ho])) i2 (by simpa using hi)
      simpa [cumprodO, hmul] using htail

lemma getD_map_lt {α β : Type} (f : α → β) (l : List α) (i : ℕ)
    (h : i < l.length) (d : α) (d2 : β) :
    (l.map f).getD i d2 = f (l.getD i d) := by
  rw [List.getD_eq_getElem?_getD, List.getElem?_map, List.getElem?_eq_getElem h,
    List.getD_eq_getElem?_getD, List.getElem?_eq_getElem h]
  rfl

lemma a_sOf_entries (args : Args) (hgeo : args.use_geometric = false)
    (hn : 1 ≤ args.num_timesteps) (hbm : 0 < args.beta_min)
    (hbb : args.beta_min < args.beta_max) :
    ∀ o ∈ a_sOf args, ∃ v, o = some v ∧ 0 < v ∧ v ≤ 1 := by
  intro o ho
  unfold a_sOf at ho
  obtain ⟨b, hb, rfl⟩ := List.mem_map.mp ho
  obtain ⟨i, hi, hbi⟩ := List.mem_iff_getElem.mp hb
  have hbd : 0 ≤ b ∧ b < 1 := by
    have := vp_betas_bounds args hgeo hn hbm hbb i hi
    rwa [List.getD_eq_getElem?_getD, List.getElem?_eq_getElem hi,
      Option.getD_some, hbi] at this
  have h1b0 : 0 < 1 - b := by linarith [hbd.2]
  have h1b1 : 1 - b ≤ 1 := by linarith [hbd.1]
  refine ⟨Real.sqrt (1 - b), ?_, Real.sqrt_pos.mpr h1b0, Real.sqrt_le_one.mpr h1b1⟩
  unfold tsqrt
  rw [if_neg (not_lt.mpr h1b0.le)]

/-- C2 counterexample: under the geometric variance choice (N = 1,
beta_min = 1/10, beta_max = 20, a valid configuration) the beta at index 1
exceeds 1, torch.sqrt(1 - beta) is NaN, and the cumulative drift entry at
t = 1 is NaN as well; hence no real values a, s with a^2 + s^2 = 1 exist
there, refuting the invariant for the geometric variance-function choice. -/
theorem diffusion_variance_invariant_counterexample :
    ¬ ∃ a s,
      (Diffusion_Coefficients_of (Args.mk 1 (1/10) 20 true)).a_s_cum.getD 1 none =
        some a ∧
      (Diffusion_Coefficients_of (Args.mk 1 (1/10) 20 true)).sigmas_cum.getD 1 none =
        some s ∧
      a ^ 2 + s ^ 2 = 1 := by
  have hform : betasOf (Args.mk 1 (1/10) 20 true) =
      [1e-8, 1 - alpha_bar (Args.mk 1 (1/10) 20 true) 1 /
        alpha_bar (Args.mk 1 (1/10) 20 true) 0] := by
    unfold betasOf
    simp [List.range_succ]
  have hBval : 1 < 1 - alpha_bar (Args.mk 1 (1/10) 20 true) 1 /
      alpha_bar (Args.mk 1 (1/10) 20 true) 0 := by
    have h := geometric_beta_exceeds_one
    rw [hform] at h
    simpa using h
  have hneg : 1 - (1 - alpha_bar (Args.mk 1 (1/10) 20 true) 1 /
      alpha_bar (Args.mk 1 (1/10) 20 true) 0) < 0 := by linarith
  have h2 : tsqrt (1 - (1 - alpha_bar (Args.mk 1 (1/10) 20 true) 1 /
      alpha_bar (Args.mk 1 (1/10) 20 true) 0)) = none := by
    unfold tsqrt
    exact if_pos hneg
  have hlist : a_sOf (Args.mk 1 (1/10) 20 true) =
      [tsqrt (1 - 1e-8), tsqrt (1 - (1 - alpha_bar (Args.mk 1 (1/10) 20 true) 1 /
        alpha_bar (Args.mk 1 (1/10) 20 true) 0))] := by
    unfold a_sOf
    rw [hform]
    rfl
  have hnone :
      (Diffusion_Coefficients_of (Args.mk 1 (1/10) 20 true)).a_s_cum.getD 1 none =
        none := by
    simp only [Diffusion_Coefficients_of, np_cumprod]
    rw [hlist]
    simp only [cumprodO, List.getD_cons_succ, List.getD_cons_zero, h2]
    exact omul_none _
  rintro ⟨a, s, ha, -, -⟩
  rw [hnone] at ha
  exact Option.noConfusion ha

/-- C2 amended: for every valid variance-preserving configuration and every
timestep t up to N, the cumulative drift and cumulative noise entries are
genuine real numbers (no NaN) and satisfy a_cum^2 + sigma_cum^2 = 1 exactly,
since sigma_cum is derived as sqrt(1 - a_cum^2).  (The invariant fails under
the geometric choice, where betas can leave the unit interval and the
square roots turn NaN.) -/
theorem diffusion_variance_invariant (args : Args)
    (hgeo : args.use_geometric = false) (hn : 1 ≤ args.num_timesteps)
    (hbm : 0 < args.beta_min) (hbb : args.beta_min < args.beta_max)
    (t : ℕ) (ht : t ≤ args.num_timesteps) :
    ∃ a s, (Diffusion_Coefficients_of args).a_s_cum.getD t none = some a ∧
      (Diffusion_Coefficients_of args).sigmas_cum.getD t none = some s ∧
      a ^ 2 + s ^ 2 = 1 := by
  have hlen : (a_sOf args).length = args.num_timesteps + 1 := by
    unfold a_sOf
    rw [List.length_map, betasOf_length]
  have ht' : t < (a_sOf args).length := by omega
  obtain ⟨c, hc, hc0, hc1⟩ := cumprodO_unit_range (a_sOf args) 1 one_pos le_rfl
    (a_sOf_entries args hgeo hn hbm hbb) t ht'
  have hacc : (Diffusion_Coefficients_of args).a_s_cum.getD t none = some c := by
    simpa [Diffusion_Coefficients_of, np_cumprod] using hc
  have h1c : 0 ≤ 1 - c ^ 2 := by nlinarith
  refine ⟨c, Real.sqrt (1 - c ^ 2), hacc, ?_, ?_⟩
  · have hmap : (Diffusion_Coefficients_of args).sigmas_cum =
        (np_cumprod (a_sOf args)).map (fun oa => oa.bind fun a => tsqrt (1 - a ^ 2)) := by
      simp [Diffusion_Coefficients_of]
    have htlen : t < (np_cumprod (a_sOf args)).length := by
      rw [np_cumprod, cumprodO_length]
      omega
    rw [hmap, getD_map_lt _ _ t htlen none none]
    have hc2 : (np_cumprod (a_sOf args)).getD t none = some c := by
      simpa [np_cumprod] using hc
    rw [hc2]
    show tsqrt (1 - c ^ 2) = some (Real.sqrt (1 - c ^ 2))
    unfold tsqrt
    rw [if_neg (not_lt.mpr h1c)]
  · rw [Real.sq_sqrt h1c]
    ring

/-- Witness for the amended C2 at the concrete variance-preserving
configuration N = 4, beta_min = 1/10, beta_max = 20 at timestep 2. -/
theorem diffusion_variance_invariant_witness :
    ∃ a s,
      (Diffusion_Coefficients_of (Args.mk 4 (1/10) 20 false)).a_s_cum.getD 2 none =
        some a ∧
      (Diffusion_Coefficients_of (Args.mk 4 (1/10) 20 false)).sigmas_cum.getD 2 none =
        some s ∧
      a ^ 2 + s ^ 2 = 1 :=
  diffusion_variance_invariant (Args.mk 4 (1/10) 20 false) rfl
    (by norm_num) (by norm_num) (by norm_num) 2 (by norm_num)

/-! ### Posterior coefficient bounds -/

lemma cumprodR_length (acc : ℝ) (l : List ℝ) :
    (cumprodR acc l).length = l.length := by
  induction l generalizing acc with
  | nil => rfl
  | cons x xs ih => simp [cumprodR, ih]

lemma cumprodR_unit_range (l : List ℝ) (a : ℝ) (ha0 : 0 < a) (ha1 : a ≤ 1)
    (hl : ∀ x ∈ l, 0 < x ∧ x < 1) :
    ∀ i, i < l.length →
      0 < (cumprodR a l).getD i 0 ∧ (cumprodR a l).getD i 0 < 1 := by
  induction l generalizing a with
  | nil =>
    intro i hi
    simp at hi
  | cons x xs ih =>
    intro i hi
    obtain ⟨hx0, hx1⟩ := hl x (by simp)
    have hax0 : 0 < a * x := mul_pos ha0 hx0
    have hax1 : a * x < 1 := by nlinarith
    cases i with
    | zero =>
      constructor
      · simpa [cumprodR] using hax0
      · simpa [cumprodR] using hax1
    | succ i2 =>
      have htail := ih (a * x) hax0 hax1.le
        (fun y hy => hl y (by simp [hy])) i2 (by simpa using hi)
      simpa [cumprodR] using htail

lemma getD_dropLast (l : List ℝ) (i : ℕ) (h : i + 1 < l.length) :
    l.dropLast.getD i 0 = l.getD i 0 := by
  induction l generalizing i with
  | nil => simp at h
  | cons x xs ih =>
    cases xs with
    | nil => simp at h
    | cons y ys =>
      cases i with
      | zero => rfl
      | succ i2 =>
        have h2 : i2 + 1 < (y :: ys).length := by simpa using h
        have := ih i2 h2
        simpa [List.dropLast] using this

lemma betas_drop_getD (args : Args) (i : ℕ) (hi : i < args.num_timesteps) :
    ((betasOf args).drop 1).getD i 0 =
      1 - alpha_bar args (i + 1) / alpha_bar args i := by
  unfold betasOf
  simp only [List.drop_succ_cons, List.drop_zero]
  exact getD_range_map _ _ _ hi

lemma pv_neg_aux (a b : ℝ) (ha : 0 < a) (hb : b < 0) (hb19 : -19 < b) :
    (1 - -19/b) * (1 - 1*(1 - (1 - b/a))) /
      (1 - 1*(1 - (1 - b/a)) * (1 - (1 - -19/b))) < 0 := by
  have hu : b/a < 0 := div_neg_of_neg_of_pos hb ha
  have hv : 1 < -19/b := by
    rw [lt_div_iff_of_neg hb]
    linarith
  have hnum : (1 - -19/b) * (1 - 1*(1 - (1 - b/a))) < 0 := by
    have e : 1 - 1*(1 - (1 - b/a)) = 1 - b/a := by ring
    rw [e]
    apply mul_neg_of_neg_of_pos
    · linarith
    · linarith
  have hden : 0 < 1 - 1*(1 - (1 - b/a)) * (1 - (1 - -19/b)) := by
    have e : 1*(1 - (1 - b/a)) * (1 - (1 - -19/b)) = b/a * (-19/b) := by ring
    rw [e]
    have hm : b/a * (-19/b) < 0 := mul_neg_of_neg_of_pos hu (by linarith)
    linarith
  exact div_neg_of_neg_of_pos hnum hden

lemma geo2_ab0 : alpha_bar (Args.mk 2 (1/10) 20 true) 0 =
    1 - 1/10 * (200:ℝ) ^ ((1:ℝ)/1000) := by
  have he : time_point 2 0 = 1/1000 := by unfold time_point; norm_num
  unfold alpha_bar var_of
  rw [he]
  norm_num [var_func_geometric]

lemma geo2_ab1 : alpha_bar (Args.mk 2 (1/10) 20 true) 1 =
    1 - 1/10 * (200:ℝ) ^ ((1001:ℝ)/2000) := by
  have he : time_point 2 1 = 1001/2000 := by unfold time_point; norm_num
  unfold alpha_bar var_of
  rw [he]
  norm_num [var_func_geometric]

lemma geo2_ab2 : alpha_bar (Args.mk 2 (1/10) 20 true) 2 = -19 := by
  have he : time_point 2 2 = 1 := by unfold time_point; norm_num
  unfold alpha_bar var_of
  rw [he]
  norm_num [var_func_geometric, Real.rpow_one]

/-- C4 counterexample: under the geometric variance choice (N = 2,
beta_min = 1/10, beta_max = 20, a valid configuration) the posterior
variance at index 1 is strictly negative, refuting the entrywise
nonnegativity for the geometric variance-function choice. -/
theorem posterior_variance_counterexample :
    (Posterior_Coefficients_of (Args.mk 2 (1/10) 20 true)).posterior_variance.getD 1 0
      < 0 := by
  show (1 - alpha_bar (Args.mk 2 (1/10) 20 true) 2 /
      alpha_bar (Args.mk 2 (1/10) 20 true) 1) *
    (1 - 1 * (1 - (1 - alpha_bar (Args.mk 2 (1/10) 20 true) 1 /
      alpha_bar (Args.mk 2 (1/10) 20 true) 0))) /
    (1 - 1 * (1 - (1 - alpha_bar (Args.mk 2 (1/10) 20 true) 1 /
      alpha_bar (Args.mk 2 (1/10) 20 true) 0)) *
      (1 - (1 - alpha_bar (Args.mk 2 (1/10) 20 true) 2 /
        alpha_bar (Args.mk 2 (1/10) 20 true) 1))) < 0
  rw [geo2_ab0, geo2_ab1, geo2_ab2]
  have hs2 := rpow_one_div_thousand_lt_two
  have hs0 : 0 < (200:ℝ) ^ ((1:ℝ)/1000) := Real.rpow_pos_of_pos (by norm_num) _
  have hr10 := rpow_1001_gt_ten
  have hr200 := rpow_1001_lt_two_hundred
  exact pv_neg_aux (1 - 1/10 * (200:ℝ) ^ ((1:ℝ)/1000))
    (1 - 1/10 * (200:ℝ) ^ ((1001:ℝ)/2000))
    (by nlinarith) (by nlinarith) (by nlinarith)

/-- C4 amended: for every valid variance-preserving configuration, the
posterior variance table is entrywise nonnegative and the clipped
log-variance is bounded below by log 1e-20 at every index (finite, no
negative infinity), thanks to the clamp at 1e-20 before the log.  (The
nonnegativity of the raw posterior variance fails under the geometric
variance choice.) -/
theorem posterior_variance_spec (args : Args)
    (hgeo : args.use_geometric = false) (hn : 1 ≤ args.num_timesteps)
    (hbm : 0 < args.beta_min) (hbb : args.beta_min < args.beta_max)
    (i : ℕ) (hi : i < args.num_timesteps) :
    0 ≤ (Posterior_Coefficients_of args).posterior_variance.getD i 0 ∧
      Real.log 1e-20 ≤
        (Posterior_Coefficients_of args).posterior_log_variance_clipped.getD i 0 := by
  have hBlen : ((betasOf args).drop 1).length = args.num_timesteps := by
    rw [List.length_drop, betasOf_length]
    omega
  have hB : ∀ j, j < args.num_timesteps →
      0 < ((betasOf args).drop 1).getD j 0 ∧
        ((betasOf args).drop 1).getD j 0 < 1 := by
    intro j hj
    rw [betas_drop_getD args j hj]
    obtain ⟨h1, h2⟩ := vp_ratio_bounds args hgeo hn hbm hbb j
    constructor <;> linarith
  have hA : ∀ x ∈ ((betasOf args).drop 1).map (fun b => 1 - b),
      0 < x ∧ x < 1 := by
    intro x hx
    obtain ⟨b, hb, rfl⟩ := List.mem_map.mp hx
    obtain ⟨j, hj, hbj⟩ := List.mem_iff_getElem.mp hb
    have hjN : j < args.num_timesteps := by rwa [hBlen] at hj
    have hgb : ((betasOf args).drop 1).getD j 0 = b := by
      rw [List.getD_eq_getElem?_getD, List.getElem?_eq_getElem hj,
        Option.getD_some, hbj]
    have hbd := hB j hjN
    rw [hgb] at hbd
    constructor <;> linarith [hbd.1, hbd.2]
  have hAlen : (((betasOf args).drop 1).map (fun b => 1 - b)).length =
      args.num_timesteps := by
    rw [List.length_map, hBlen]
  have hC := cumprodR_unit_range (((betasOf args).drop 1).map (fun b => 1 - b))
    1 one_pos le_rfl hA
  have habc : ∀ j, j < args.num_timesteps →
      0 < (torch_cumprod (((betasOf args).drop 1).map (fun b => 1 - b))).getD j 0 ∧
        (torch_cumprod (((betasOf args).drop 1).map (fun b => 1 - b))).getD j 0 < 1 := by
    intro j hj
    exact hC j (by rwa [hAlen])
  have habcl : (torch_cumprod (((betasOf args).drop 1).map (fun b => 1 - b))).length =
      args.num_timesteps := by
    unfold torch_cumprod
    rw [cumprodR_length, hAlen]
  have habp : ∀ j, j < args.num_timesteps →
      0 < ((1:ℝ) :: (torch_cumprod (((betasOf args).drop 1).map
          (fun b => 1 - b))).dropLast).getD j 0 ∧
        ((1:ℝ) :: (torch_cumprod (((betasOf args).drop 1).map
          (fun b => 1 - b))).dropLast).getD j 0 ≤ 1 := by
    intro j hj
    cases j with
    | zero => norm_num
    | succ j2 =>
      rw [List.getD_cons_succ]
      have hj2 : j2 + 1 < (torch_cumprod (((betasOf args).drop 1).map
          (fun b => 1 - b))).length := by omega
      rw [getD_dropLast _ _ hj2]
      have := habc j2 (by omega)
      exact ⟨this.1, this.2.le⟩
  have hproj : (Posterior_Coefficients_of args).posterior_variance =
      (List.range ((betasOf args).drop 1).length).map
        (fun j => ((betasOf args).drop 1).getD j 0 *
          (1 - ((1:ℝ) :: (torch_cumprod (((betasOf args).drop 1).map
            (fun b => 1 - b))).dropLast).getD j 0) /
          (1 - (torch_cumprod (((betasOf args).drop 1).map
            (fun b => 1 - b))).getD j 0)) := rfl
  have hpvi : (Posterior_Coefficients_of args).posterior_variance.getD i 0 =
      ((betasOf args).drop 1).getD i 0 *
        (1 - ((1:ℝ) :: (torch_cumprod (((betasOf args).drop 1).map
          (fun b => 1 - b))).dropLast).getD i 0) /
        (1 - (torch_cumprod (((betasOf args).drop 1).map
          (fun b => 1 - b))).getD i 0) := by
    rw [hproj]
    exact getD_range_map _ _ _ (by rwa [hBlen])
  have hpv_nonneg : 0 ≤ (Posterior_Coefficients_of args).posterior_variance.getD i 0 := by
    rw [hpvi]
    apply div_nonneg
    · apply mul_nonneg (hB i hi).1.le
      linarith [(habp i hi).2]
    · linarith [(habc i hi).2]
  refine ⟨hpv_nonneg, ?_⟩
  have hlogproj : (Posterior_Coefficients_of args).posterior_log_variance_clipped =
      (Posterior_Coefficients_of args).posterior_variance.map
        (fun v => Real.log (max v 1e-20)) := rfl
  have hpvlen : (Posterior_Coefficients_of args).posterior_variance.length =
      args.num_timesteps := by
    rw [hproj, List.length_map, List.length_range, hBlen]
  rw [hlogproj, getD_map_lt _ _ i (by rwa [hpvlen]) 0 0]
  apply Real.log_le_log (by norm_num)
  exact le_max_right _ _

/-- Witness for the amended C4 at the concrete variance-preserving
configuration N = 4, beta_min = 1/10, beta_max = 20 at index 0. -/
theorem posterior_variance_spec_witness :
    0 ≤ (Posterior_Coefficients_of (Args.mk 4 (1/10) 20 false)).posterior_variance.getD 0 0 ∧
      Real.log 1e-20 ≤
        (Posterior_Coefficients_of (Args.mk 4 (1/10) 20 false)).posterior_log_variance_clipped.getD 0 0 :=
  posterior_variance_spec (Args.mk 4 (1/10) 20 false) rfl
    (by norm_num) (by norm_num) (by norm_num) 0 (by norm_num)

/-- C9: for every Diffusion Coefficients table whose entries at the accessed
indices are genuine reals, q_sample returns a_cum[t] * x_start +
sigma_cum[t] * noise per batch element (with the noise defaulting to the
fresh draw when not supplied); q_sample_pairs returns x_t = q_sample with
one fresh draw and x_{t+1} = a[t+1] * x_t + sigma[t+1] * noise2 with a
second, independent draw; and for tables built from any configuration the
index t+1 is always in range when t < N. -/
theorem q_sample_forward_spec :
    (∀ (coeff : Diffusion_Coefficients) (x_start : ℕ → ℕ → ℕ → ℕ → ℝ)
      (t : ℕ → ℕ) (noise rng : ℕ → ℕ → ℕ → ℕ → ℝ) (A S : ℝ) (b c i j : ℕ),
      coeff.a_s_cum.getD (t b) none = some A →
      coeff.sigmas_cum.getD (t b) none = some S →
      q_sample coeff x_start t (some noise) rng b c i j =
        some (A * x_start b c i j + S * noise b c i j) ∧
      q_sample coeff x_start t none rng b c i j =
        some (A * x_start b c i j + S * rng b c i j)) ∧
    (∀ (coeff : Diffusion_Coefficients) (x_start : ℕ → ℕ → ℕ → ℕ → ℝ)
      (t : ℕ → ℕ) (rng1 rng2 : ℕ → ℕ → ℕ → ℕ → ℝ) (A S A2 S2 : ℝ) (b c i j : ℕ),
      coeff.a_s_cum.getD (t b) none = some A →
      coeff.sigmas_cum.getD (t b) none = some S →
      coeff.a_s.getD (t b + 1) none = some A2 →
      coeff.sigmas.getD (t b + 1) none = some S2 →
      (q_sample_pairs coeff x_start t rng1 rng2).1 b c i j =
        some (A * x_start b c i j + S * rng2 b c i j) ∧
      (q_sample_pairs coeff x_start t rng1 rng2).2 b c i j =
        some (A2 * (A * x_start b c i j + S * rng2 b c i j) + S2 * rng1 b c i j)) ∧
    (∀ (args : Args) (t : ℕ → ℕ) (b : ℕ), t b < args.num_timesteps →
      (Diffusion_Coefficients_of args).a_s.length = args.num_timesteps + 1 ∧
      t b + 1 < (Diffusion_Coefficients_of args).a_s.length ∧
      t b + 1 < (Diffusion_Coefficients_of args).sigmas.length) := by
  refine ⟨?_, ?_, ?_⟩
  · intro coeff x_start t noise rng A S b c i j hA hS
    constructor
    · unfold q_sample oadd omul
      rw [hA, hS]
      rfl
    · unfold q_sample oadd omul
      rw [hA, hS]
      rfl
  · intro coeff x_start t rng1 rng2 A S A2 S2 b c i j hA hS hA2 hS2
    constructor
    · show oadd (omul (coeff.a_s_cum.getD (t b) none) (some (x_start b c i j)))
          (omul (coeff.sigmas_cum.getD (t b) none) (some (rng2 b c i j))) =
        some (A * x_start b c i j + S * rng2 b c i j)
      unfold oadd omul
      rw [hA, hS]
      rfl
    · show oadd (omul (coeff.a_s.getD (t b + 1) none)
          (oadd (omul (coeff.a_s_cum.getD (t b) none) (some (x_start b c i j)))
            (omul (coeff.sigmas_cum.getD (t b) none) (some (rng2 b c i j)))))
          (omul (coeff.sigmas.getD (t b + 1) none) (some (rng1 b c i j))) =
        some (A2 * (A * x_start b c i j + S * rng2 b c i j) + S2 * rng1 b c i j)
      unfold oadd omul
      rw [hA, hS, hA2, hS2]
      rfl
  · intro args t b hb
    have ha : (Diffusion_Coefficients_of args).a_s.length =
        args.num_timesteps + 1 := by
      show (a_sOf args).length = args.num_timesteps + 1
      unfold a_sOf
      rw [List.length_map, betasOf_length]
    have hsg : (Diffusion_Coefficients_of args).sigmas.length =
        args.num_timesteps + 1 := by
      show (sigmasOf args).length = args.num_timesteps + 1
      unfold sigmasOf
      rw [List.length_map, betasOf_length]
    refine ⟨ha, ?_, ?_⟩
    · omega
    · omega

/-- Witness for C9 at a concrete table and concrete constant tensors. -/
theorem q_sample_forward_spec_witness :
    (q_sample_pairs
        ⟨[some 0, some (1/5)], [some 1, some (1/4)], [some (1/2)], [some (1/3)], []⟩
        (fun _ _ _ _ => 2) (fun _ => 0) (fun _ _ _ _ => 3) (fun _ _ _ _ => 5)).1
        0 0 0 0 =
      some (1/2 * 2 + 1/3 * 5) ∧
    (q_sample_pairs
        ⟨[some 0, some (1/5)], [some 1, some (1/4)], [some (1/2)], [some (1/3)], []⟩
        (fun _ _ _ _ => 2) (fun _ => 0) (fun _ _ _ _ => 3) (fun _ _ _ _ => 5)).2
        0 0 0 0 =
      some (1/4 * (1/2 * 2 + 1/3 * 5) + 1/5 * 3) :=
  q_sample_forward_spec.2.1
    ⟨[some 0, some (1/5)], [some 1, some (1/4)], [some (1/2)], [some (1/3)], []⟩
    (fun _ _ _ _ => 2) (fun _ => 0) (fun _ _ _ _ => 3) (fun _ _ _ _ => 5)
    (1/2) (1/3) (1/4) (1/5) 0 0 0 0 rfl rfl rfl rfl

/-! ### The guidance sampler at scale zero -/

lemma revLoop_congr (f g : ℕ → (ℕ→ℕ→ℕ→ℕ→ℝ) → (ℕ→ℕ→ℕ→ℕ→ℝ)) (n : ℕ)
    (h : ∀ i, i < n → ∀ x, f i x = g i x) :
    ∀ x, revLoop f n x = revLoop g n x := by
  induction n with
  | zero =>
    intro x
    rfl
  | succ n ih =>
    intro x
    show revLoop f n (f n x) = revLoop g n (g n x)
    rw [h n (Nat.lt_succ_self n) x]
    exact ih (fun i hi y => h i (Nat.lt_succ_of_lt hi) y) _

lemma scale_zero_recon (ac xv u v : ℝ) (h1 : Real.sqrt ac ≠ 0)
    (h2 : Real.sqrt (1 - ac) ≠ 0) :
    1 / Real.sqrt ac * (xv - Real.sqrt (1 - ac) *
      ((xv - Real.sqrt ac * u) / Real.sqrt (1 - ac) * (1 - 0) +
       (xv - Real.sqrt ac * v) / Real.sqrt (1 - ac) * 0)) = u := by
  field_simp

/-- C1 amended: with dynamic thresholding disabled (q = 0) and a coefficient
table whose alphas_cumprod entries used by the loop lie strictly between 0
and 1, the classifier-free-guidance sampler at guidance_scale = 0 produces
output identical to the base sampler run with the null conditioning, given
identical latent and posterior noise streams.  (It does, however, still
perform the null-conditioning generator inference - see the
counterexample.) -/
theorem cfg_guidance_scale_zero_matches_base {L C : Type}
    (coefficients : Posterior_Coefficients)
    (generator : (ℕ→ℕ→ℕ→ℕ→ℝ) → (ℕ→ℕ) → L → C → (ℕ→ℕ→ℕ→ℕ→ℝ))
    (n_time : ℕ) (x_init : ℕ→ℕ→ℕ→ℕ→ℝ) (T : List ℝ)
    (text_encoder : List String → C) (bs : ℕ) (cond : C)
    (quantile : (ℕ→ℕ→ℕ→ℝ) → ℝ → ℝ) (latents : ℕ → L)
    (noises : ℕ → ℕ→ℕ→ℕ→ℕ→ℝ)
    (hac : ∀ i, i < n_time → 0 < coefficients.alphas_cumprod.getD i 0 ∧
      coefficients.alphas_cumprod.getD i 0 < 1) :
    sample_from_model_classifier_free_guidance coefficients generator n_time
      x_init T text_encoder bs cond 0 0 quantile latents noises =
      sample_from_model coefficients generator n_time x_init T
        (text_encoder (List.replicate bs "")) latents noises := by
  unfold sample_from_model_classifier_free_guidance sample_from_model
  apply revLoop_congr
  intro i hi x
  obtain ⟨h0, h1⟩ := hac i hi
  have hs1 : Real.sqrt (coefficients.alphas_cumprod.getD i 0) ≠ 0 :=
    ne_of_gt (Real.sqrt_pos.mpr h0)
  have hs2 : Real.sqrt (1 - coefficients.alphas_cumprod.getD i 0) ≠ 0 :=
    ne_of_gt (Real.sqrt_pos.mpr (by linarith))
  have hthr : ∀ f : ℕ→ℕ→ℕ→ℕ→ℝ, dynamic_threshold quantile 0 f = f := by
    intro f
    unfold dynamic_threshold
    simp
  show sample_posterior coefficients
      (dynamic_threshold quantile 0 (fun b c h w =>
        1 / Real.sqrt (coefficients.alphas_cumprod.getD i 0) *
          (x b c h w - Real.sqrt (1 - coefficients.alphas_cumprod.getD i 0) *
            ((x b c h w - Real.sqrt (coefficients.alphas_cumprod.getD i 0) *
              generator x (fun _ => i) (latents i)
                (text_encoder (List.replicate bs "")) b c h w) /
              Real.sqrt (1 - coefficients.alphas_cumprod.getD i 0) * (1 - 0) +
            (x b c h w - Real.sqrt (coefficients.alphas_cumprod.getD i 0) *
              generator x (fun _ => i) (latents i) cond b c h w) /
              Real.sqrt (1 - coefficients.alphas_cumprod.getD i 0) * 0))))
      x (fun _ => i) (noises i) =
    sample_posterior coefficients
      (generator x (fun _ => i) (latents i) (text_encoder (List.replicate bs "")))
      x (fun _ => i) (noises i)
  rw [hthr]
  have hx0 : (fun b c h w =>
      1 / Real.sqrt (coefficients.alphas_cumprod.getD i 0) *
        (x b c h w - Real.sqrt (1 - coefficients.alphas_cumprod.getD i 0) *
          ((x b c h w - Real.sqrt (coefficients.alphas_cumprod.getD i 0) *
            generator x (fun _ => i) (latents i)
              (text_encoder (List.replicate bs "")) b c h w) /
            Real.sqrt (1 - coefficients.alphas_cumprod.getD i 0) * (1 - 0) +
          (x b c h w - Real.sqrt (coefficients.alphas_cumprod.getD i 0) *
            generator x (fun _ => i) (latents i) cond b c h w) /
            Real.sqrt (1 - coefficients.alphas_cumprod.getD i 0) * 0))) =
      generator x (fun _ => i) (latents i) (text_encoder (List.replicate bs "")) := by
    funext b c h w
    exact scale_zero_recon (coefficients.alphas_cumprod.getD i 0) (x b c h w)
      (generator x (fun _ => i) (latents i) (text_encoder (List.replicate bs "")) b c h w)
      (generator x (fun _ => i) (latents i) cond b c h w) hs1 hs2
  rw [hx0]

/-- C1 counterexample: at guidance_scale = 0 the guidance sampler still
performs the null-conditioning generator inference - its output depends on
the generator's behaviour at the null conditioning.  Two generators that
agree at the real conditioning (here the only non-null conditioning) but
differ at the null conditioning produce different scale-zero outputs. -/
theorem cfg_null_inference_counterexample :
    let g1 : (ℕ→ℕ→ℕ→ℕ→ℝ) → (ℕ→ℕ) → Unit → Bool → (ℕ→ℕ→ℕ→ℕ→ℝ) :=
      fun _ _ _ _ => fun _ _ _ _ => 0
    let g2 : (ℕ→ℕ→ℕ→ℕ→ℝ) → (ℕ→ℕ) → Unit → Bool → (ℕ→ℕ→ℕ→ℕ→ℝ) :=
      fun _ _ _ c => if c then (fun _ _ _ _ => 0) else fun _ _ _ _ => 1
    (∀ x t z, g1 x t z true = g2 x t z true) ∧
    sample_from_model_classifier_free_guidance
      ⟨[], [], [1/2], [], [], [], [], [], [1], [0], [0]⟩
      g1 1 (fun _ _ _ _ => 0) [] (fun _ => false) 1 true 0 0 (fun _ _ => 0)
      (fun _ => ()) (fun _ _ _ _ _ => 0) ≠
    sample_from_model_classifier_free_guidance
      ⟨[], [], [1/2], [], [], [], [], [], [1], [0], [0]⟩
      g2 1 (fun _ _ _ _ => 0) [] (fun _ => false) 1 true 0 0 (fun _ _ => 0)
      (fun _ => ()) (fun _ _ _ _ _ => 0) := by
  intro g1 g2
  constructor
  · intro x t z
    rfl
  · intro h
    have h4 := congrFun (congrFun (congrFun (congrFun h 0) 0) 0) 0
    simp only [sample_from_model_classifier_free_guidance, revLoop,
      dynamic_threshold, sample_posterior, nonzero_mask, g1, g2] at h4
    norm_num [List.getD_cons_zero] at h4

/-- C10: in each iteration the null-conditioned and the conditioned generator
calls receive the very same latent draw, so a generator that ignores
conditioning makes the guidance samplers (plain and tiled) independent of
both the conditioning and the guidance scale; and the tiled sampler consumes
exactly one latent per iteration, shared across all patches - its output
depends on the latent stream only through the first n_time entries. -/
theorem cfg_shared_latent_spec :
    (∀ (L C : Type)
      (generator : (ℕ→ℕ→ℕ→ℕ→ℝ) → (ℕ→ℕ) → L → C → (ℕ→ℕ→ℕ→ℕ→ℝ)),
      (∀ x t z c1 c2, generator x t z c1 = generator x t z c2) →
      ∀ (coefficients : Posterior_Coefficients) (n_time : ℕ)
        (x_init : ℕ→ℕ→ℕ→ℕ→ℝ) (T : List ℝ) (text_encoder : List String → C)
        (bs : ℕ) (cond1 cond2 : C) (s1 s2 q : ℝ)
        (quantile : (ℕ→ℕ→ℕ→ℝ) → ℝ → ℝ) (latents : ℕ → L)
        (noises : ℕ → ℕ→ℕ→ℕ→ℕ→ℝ),
        sample_from_model_classifier_free_guidance coefficients generator
          n_time x_init T text_encoder bs cond1 s1 q quantile latents noises =
        sample_from_model_classifier_free_guidance coefficients generator
          n_time x_init T text_encoder bs cond2 s2 q quantile latents noises) ∧
    (∀ (L C : Type)
      (generator : (ℕ→ℕ→ℕ→ℕ→ℝ) → (ℕ→ℕ) → L → C → (ℕ→ℕ→ℕ→ℕ→ℝ)),
      (∀ x t z c1 c2, generator x t z c1 = generator x t z c2) →
      ∀ (coefficients : Posterior_Coefficients) (n_time : ℕ)
        (x_init : ℕ→ℕ→ℕ→ℕ→ℝ) (T : List ℝ) (text_encoder : List String → C)
        (bs : ℕ) (cond1 cond2 : C) (s1 s2 : ℝ) (h w kh kw sh sw : ℕ)
        (sp : SplitParams) (q : ℝ) (quantile : (ℕ→ℕ→ℕ→ℝ) → ℝ → ℝ)
        (latents : ℕ → L) (noises : ℕ → ℕ → ℕ→ℕ→ℕ→ℕ→ℝ),
        sample_from_model_classifier_free_guidance_convolutional coefficients
          generator n_time x_init T text_encoder bs cond1 s1
          h w kh kw sh sw sp q quantile latents noises =
        sample_from_model_classifier_free_guidance_convolutional coefficients
          generator n_time x_init T text_encoder bs cond2 s2
          h w kh kw sh sw sp q quantile latents noises) ∧
    (∀ (L C : Type)
      (generator : (ℕ→ℕ→ℕ→ℕ→ℝ) → (ℕ→ℕ) → L → C → (ℕ→ℕ→ℕ→ℕ→ℝ))
      (coefficients : Posterior_Coefficients) (n_time : ℕ)
      (x_init : ℕ→ℕ→ℕ→ℕ→ℝ) (T : List ℝ) (text_encoder : List String → C)
      (bs : ℕ) (cond : C) (s : ℝ) (h w kh kw sh sw : ℕ) (sp : SplitParams)
      (q : ℝ) (quantile : (ℕ→ℕ→ℕ→ℝ) → ℝ → ℝ) (latents latents2 : ℕ → L)
      (noises : ℕ → ℕ → ℕ→ℕ→ℕ→ℕ→ℝ),
      (∀ i, i < n_time → latents i = latents2 i) →
      sample_from_model_classifier_free_guidance_convolutional coefficients
        generator n_time x_init T text_encoder bs cond s
        h w kh kw sh sw sp q quantile latents noises =
      sample_from_model_classifier_free_guidance_convolutional coefficients
        generator n_time x_init T text_encoder bs cond s
        h w kh kw sh sw sp q quantile latents2 noises) := by
  refine ⟨?_, ?_, ?_⟩
  · intro L C generator hgen coefficients n_time x_init T text_encoder bs
      cond1 cond2 s1 s2 q quantile latents noises
    unfold sample_from_model_classifier_free_guidance
    apply revLoop_congr
    intro i hi x
    have hc1 : generator x (fun _ => i) (latents i) cond1 =
        generator x (fun _ => i) (latents i)
          (text_encoder (List.replicate bs "")) := hgen x _ _ _ _
    have hc2 : generator x (fun _ => i) (latents i) cond2 =
        generator x (fun _ => i) (latents i)
          (text_encoder (List.replicate bs "")) := hgen x _ _ _ _
    show sample_posterior coefficients (dynamic_threshold quantile q _) x
        (fun _ => i) (noises i) =
      sample_posterior coefficients (dynamic_threshold quantile q _) x
        (fun _ => i) (noises i)
    rw [hc1, hc2]
    have hx : (fun b c h w =>
        1 / Real.sqrt (coefficients.alphas_cumprod.getD i 0) *
          (x b c h w - Real.sqrt (1 - coefficients.alphas_cumprod.getD i 0) *
            ((x b c h w - Real.sqrt (coefficients.alphas_cumprod.getD i 0) *
              generator x (fun _ => i) (latents i)
                (text_encoder (List.replicate bs "")) b c h w) /
              Real.sqrt (1 - coefficients.alphas_cumprod.getD i 0) * (1 - s1) +
            (x b c h w - Real.sqrt (coefficients.alphas_cumprod.getD i 0) *
              generator x (fun _ => i) (latents i)
                (text_encoder (List.replicate bs "")) b c h w) /
              Real.sqrt (1 - coefficients.alphas_cumprod.getD i 0) * s1))) =
        (fun b c h w =>
        1 / Real.sqrt (coefficients.alphas_cumprod.getD i 0) *
          (x b c h w - Real.sqrt (1 - coefficients.alphas_cumprod.getD i 0) *
            ((x b c h w - Real.sqrt (coefficients.alphas_cumprod.getD i 0) *
              generator x (fun _ => i) (latents i)
                (text_encoder (List.replicate bs "")) b c h w) /
              Real.sqrt (1 - coefficients.alphas_cumprod.getD i 0) * (1 - s2) +
            (x b c h w - Real.sqrt (coefficients.alphas_cumprod.getD i 0) *
              generator x (fun _ => i) (latents i)
                (text_encoder (List.replicate bs "")) b c h w) /
              Real.sqrt (1 - coefficients.alphas_cumprod.getD i 0) * s2))) := by
      funext b c h w
      ring
    rw [hx]
  · intro L C generator hgen coefficients n_time x_init T text_encoder bs
      cond1 cond2 s1 s2 h w kh kw sh sw sp q quantile latents noises
    unfold sample_from_model_classifier_free_guidance_convolutional
    apply revLoop_congr
    intro i hi x
    funext b2 c2 i2 j2
    have hnew : ∀ s1 s2 : ℝ, ∀ cond1 cond2 : C, (fun (p : ℕ) =>
        sample_posterior coefficients
          (dynamic_threshold quantile q (fun b c a e =>
            1 / Real.sqrt (coefficients.alphas_cumprod.getD i 0) *
              (unfold_op w kw sh sw x b c a e p -
                Real.sqrt (1 - coefficients.alphas_cumprod.getD i 0) *
                ((unfold_op w kw sh sw x b c a e p -
                  Real.sqrt (coefficients.alphas_cumprod.getD i 0) *
                    generator (fun b c a e => unfold_op w kw sh sw x b c a e p)
                      (fun _ => i) (latents i)
                      (text_encoder (List.replicate bs "")) b c a e) /
                  Real.sqrt (1 - coefficients.alphas_cumprod.getD i 0) * (1 - s1) +
                (unfold_op w kw sh sw x b c a e p -
                  Real.sqrt (coefficients.alphas_cumprod.getD i 0) *
                    generator (fun b c a e => unfold_op w kw sh sw x b c a e p)
                      (fun _ => i) (latents i) cond1 b c a e) /
                  Real.sqrt (1 - coefficients.alphas_cumprod.getD i 0) * s1))))
          (fun b c a e => unfold_op w kw sh sw x b c a e p)
          (fun _ => i) (noises i p)) =
        (fun (p : ℕ) =>
        sample_posterior coefficients
          (dynamic_threshold quantile q (fun b c a e =>
            1 / Real.sqrt (coefficients.alphas_cumprod.getD i 0) *
              (unfold_op w kw sh sw x b c a e p -
                Real.sqrt (1 - coefficients.alphas_cumprod.getD i 0) *
                ((unfold_op w kw sh sw x b c a e p -
                  Real.sqrt (coefficients.alphas_cumprod.getD i 0) *
                    generator (fun b c a e => unfold_op w kw sh sw x b c a e p)
                      (fun _ => i) (latents i)
                      (text_encoder (List.replicate bs "")) b c a e) /
                  Real.sqrt (1 - coefficients.alphas_cumprod.getD i 0) * (1 - s2) +
                (unfold_op w kw sh sw x b c a e p -
                  Real.sqrt (coefficients.alphas_cumprod.getD i 0) *
                    generator (fun b c a e => unfold_op w kw sh sw x b c a e p)
                      (fun _ => i) (latents i) cond2 b c a e) /
                  Real.sqrt (1 - coefficients.alphas_cumprod.getD i 0) * s2))))
          (fun b c a e => unfold_op w kw sh sw x b c a e p)
          (fun _ => i) (noises i p)) := by
      intro s1 s2 cond1 cond2
      funext p
      have hc1 : generator (fun b c a e => unfold_op w kw sh sw x b c a e p)
          (fun _ => i) (latents i) cond1 =
          generator (fun b c a e => unfold_op w kw sh sw x b c a e p)
            (fun _ => i) (latents i)
            (text_encoder (List.replicate bs "")) := hgen _ _ _ _ _
      have hc2 : generator (fun b c a e => unfold_op w kw sh sw x b c a e p)
          (fun _ => i) (latents i) cond2 =
          generator (fun b c a e => unfold_op w kw sh sw x b c a e p)
            (fun _ => i) (latents i)
            (text_encoder (List.replicate bs "")) := hgen _ _ _ _ _
      rw [hc1, hc2]
      have hx : (fun (b : ℕ) (c : ℕ) (a : ℕ) (e : ℕ) =>
          1 / Real.sqrt (coefficients.alphas_cumprod.getD i 0) *
            (unfold_op w kw sh sw x b c a e p -
              Real.sqrt (1 - coefficients.alphas_cumprod.getD i 0) *
              ((unfold_op w kw sh sw x b c a e p -
                Real.sqrt (coefficients.alphas_cumprod.getD i 0) *
                  generator (fun b c a e => unfold_op w kw sh sw x b c a e p)
                    (fun _ => i) (latents i)
                    (text_encoder (List.replicate bs "")) b c a e) /
                Real.sqrt (1 - coefficients.alphas_cumprod.getD i 0) * (1 - s1) +
              (unfold_op w kw sh sw x b c a e p -
                Real.sqrt (coefficients.alphas_cumprod.getD i 0) *
                  generator (fun b c a e => unfold_op w kw sh sw x b c a e p)
                    (fun _ => i) (latents i)
                    (text_encoder (List.replicate bs "")) b c a e) /
                Real.sqrt (1 - coefficients.alphas_cumprod.getD i 0) * s1))) =
          (fun (b : ℕ) (c : ℕ) (a : ℕ) (e : ℕ) =>
          1 / Real.sqrt (coefficients.alphas_cumprod.getD i 0) *
            (unfold_op w kw sh sw x b c a e p -
              Real.sqrt (1 - coefficients.alphas_cumprod.getD i 0) *
              ((unfold_op w kw sh sw x b c a e p -
                Real.sqrt (coefficients.alphas_cumprod.getD i 0) *
                  generator (fun b c a e => unfold_op w kw sh sw x b c a e p)
                    (fun _ => i) (latents i)
                    (text_encoder (List.replicate bs "")) b c a e) /
                Real.sqrt (1 - coefficients.alphas_cumprod.getD i 0) * (1 - s2) +
              (unfold_op w kw sh sw x b c a e p -
                Real.sqrt (coefficients.alphas_cumprod.getD i 0) *
                  generator (fun b c a e => unfold_op w kw sh sw x b c a e p)
                    (fun _ => i) (latents i)
                    (text_encoder (List.replicate bs "")) b c a e) /
                Real.sqrt (1 - coefficients.alphas_cumprod.getD i 0) * s2))) := by
        funext b c a e
        ring
      rw [hx]
    show fold_op h w kh kw sh sw _ b2 c2 i2 j2 /
        normalization_map h w kh kw sh sw sp i2 j2 =
      fold_op h w kh kw sh sw _ b2 c2 i2 j2 /
        normalization_map h w kh kw sh sw sp i2 j2
    rw [hnew s1 s2 cond1 cond2]
  · intro L C generator coefficients n_time x_init T text_encoder bs cond s
      h w kh kw sh sw sp q quantile latents latents2 noises hlat
    unfold sample_from_model_classifier_free_guidance_convolutional
    apply revLoop_congr
    intro i hi x
    rw [hlat i hi]

/-- Witness for the amended C1 at a concrete table, generator and streams:
the scale-zero guidance run coincides with the base run under the null
conditioning. -/
theorem cfg_guidance_scale_zero_matches_base_witness :
    sample_from_model_classifier_free_guidance
      ⟨[], [], [1/2], [], [], [], [], [], [1], [0], [0]⟩
      (fun x _ _ (_ : Bool) => x) 1 (fun _ _ _ _ => 0) [] (fun _ => false) 1
      true 0 0 (fun _ _ => 0) (fun _ => ()) (fun _ _ _ _ _ => 0) =
    sample_from_model
      ⟨[], [], [1/2], [], [], [], [], [], [1], [0], [0]⟩
      (fun x _ _ (_ : Bool) => x) 1 (fun _ _ _ _ => 0) [] false
      (fun _ => ()) (fun _ _ _ _ _ => 0) :=
  cfg_guidance_scale_zero_matches_base
    ⟨[], [], [1/2], [], [], [], [], [], [1], [0], [0]⟩
    (fun x _ _ (_ : Bool) => x) 1 (fun _ _ _ _ => 0) [] (fun _ => false) 1
    true (fun _ _ => 0) (fun _ => ()) (fun _ _ _ _ _ => 0)
    (by
      intro i hi
      have h0 : i = 0 := by omega
      subst h0
      constructor <;> norm_num [List.getD_cons_zero])

/-- Witness for C10 at a concrete conditioning-blind generator: the guidance
sampler output is unchanged when the conditioning and the guidance scale
change. -/
theorem cfg_shared_latent_spec_witness :
    sample_from_model_classifier_free_guidance
      ⟨[], [], [1/2], [], [], [], [], [], [1], [0], [0]⟩
      (fun x _ _ (_ : Bool) => x) 1 (fun _ _ _ _ => 0) [] (fun _ => false) 1
      true 0 0 (fun _ _ => 0) (fun _ => ()) (fun _ _ _ _ _ => 0) =
    sample_from_model_classifier_free_guidance
      ⟨[], [], [1/2], [], [], [], [], [], [1], [0], [0]⟩
      (fun x _ _ (_ : Bool) => x) 1 (fun _ _ _ _ => 0) [] (fun _ => false) 1
      false 1 0 (fun _ _ => 0) (fun _ => ()) (fun _ _ _ _ _ => 0) :=
  cfg_shared_latent_spec.1 Unit Bool (fun x _ _ _ => x)
    (fun _ _ _ _ _ => rfl)
    ⟨[], [], [1/2], [], [], [], [], [], [1], [0], [0]⟩
    1 (fun _ _ _ _ => 0) [] (fun _ => false) 1 true false 0 1 0
    (fun _ _ => 0) (fun _ => ()) (fun _ _ _ _ _ => 0)

/-- C7: evaluating the tiled sampling path's recomposition on a uniform
image of constant value 1 (4 x 4 image, 2 x 2 kernel, stride 2 - an exact
tiling - with the source's weighting-clip bounds 0.01 / 0.5 and active
tie-breaker): folding the unfolded patches and dividing by the
normalization map yields 10000 at pixel (0,0), not the original constant 1.
The per-patch weighting multiply on the stacked output is commented out in
the source, so the weights in the normalization map do not cancel. -/
theorem tiled_fold_normalization_distorts_constant :
    fold_op 4 4 2 2 2 2 (unfold_op 4 2 2 2 (fun _ _ _ _ => 1)) 0 0 0 0 /
        normalization_map 4 4 2 2 2 2
          (SplitParams.mk (1/100) (1/2) true (1/100) (1/2)) 0 0 = 10000 ∧
    (10000:ℝ) ≠ 1 := by
  constructor
  · unfold normalization_map
    unfold fold_op unfold_op n_patches
    norm_num [Finset.sum_range_succ, Finset.sum_range_zero, get_weighting,
      delta_border, tclip, min_def, max_def]
  · norm_num

end DDGan
